import Mathlib

/-!
Verification of the asciiflow2 diagram grid engine.

The grid/state operations are translated from `src/js-lib/state.js`, the
coordinate transforms from the `View` class (`screenToFrame`, `frameToScreen`,
`frameToCell`), and the Box draw tool from `src/js-lib/draw/box.js`.
Collaborator code that is not part of the sources at hand (the `Cell` class,
the `Vector` class, the numeric constants, and the `drawLine` helper) is
modelled from the specification, as marked on each definition.
-/

namespace AsciiFlow

/-- Modelled from the spec: `vector.js` is not among the sources; §6 requires an
immutable 2D integer vector supporting addition and subtraction. -/
structure Vec where
  x : Int
  y : Int
deriving DecidableEq, Repr

/-- Vector addition, as used by `getContext` via `position.add(new Vector(dx, dy))`. -/
def Vec.add (a b : Vec) : Vec := ⟨a.x + b.x, a.y + b.y⟩

/-- Modelled from the spec: `constants.js` is not among the sources. The spec names a
special-marker sentinel; a concrete character is chosen (distinct from the
connector glyphs below). -/
def SPECIAL_VALUE : Char := '+'

/-- Modelled from the spec: the horizontal connector glyph named in §4.2. -/
def SPECIAL_LINE_H : Char := '-'

/-- Modelled from the spec: the vertical connector glyph named in §4.2. -/
def SPECIAL_LINE_V : Char := '|'

/-- Modelled from the spec: the `Cell` class is not among the sources; §3 defines a
Cell as `rawValue : char|null` (field `value` in `state.js`),
`scratchValue : char|null`, and a structural `special : bool` flag. -/
structure Cell where
  value : Option Char
  scratchValue : Option Char
  special : Bool
deriving DecidableEq, Repr

/-- Modelled from the spec: `isSpecial() = special`. -/
def Cell.isSpecial (c : Cell) : Bool := c.special

/-- Modelled from the spec: `hasScratch() = scratchValue != null`. -/
def Cell.hasScratch (c : Cell) : Bool := c.scratchValue.isSome

/-- Modelled from the spec: `getRawValue() = scratchValue ?? rawValue`, the resolved
value (scratch if present, else committed).  `state.js` line 72 computes the
same expression inline. -/
def Cell.getRawValue (c : Cell) : Option Char :=
  match c.scratchValue with
  | some v => some v
  | none => c.value

/-- The diagram state (`ascii.State` in `state.js`): a family of cells addressed
by coordinates, plus the ordered active scratch collection `scratchCells`.
The 2D array of cells is modelled as a total function from coordinates to
cells; the spec's invariant that each coordinate denotes one stable cell
identity lets `scratchCells` store coordinates in place of cell references. -/
structure State where
  cells : Vec → Cell
  scratchCells : List Vec

/-- `getCell` (state.js line 27): the cell at the given coordinates. -/
def State.getCell (s : State) (v : Vec) : Cell := s.cells v

/-- Pointwise update of the cell family at one coordinate. -/
def updateCells (cs : Vec → Cell) (p : Vec) (f : Cell → Cell) : Vec → Cell :=
  fun q => if q = p then f (cs q) else cs q

/-- `setValue` (state.js line 38): sets the committed value directly. -/
def State.setValue (s : State) (p : Vec) (v : Option Char) : State :=
  { s with cells := updateCells s.cells p (fun c => { c with value := v }) }

/-- `drawValue` (state.js lines 48-52): pushes the cell onto `scratchCells`
and sets its scratch value. -/
def State.drawValue (s : State) (p : Vec) (v : Option Char) : State :=
  { cells := updateCells s.cells p (fun c => { c with scratchValue := v })
    scratchCells := s.scratchCells ++ [p] }

/-- The per-cell effect of `clearDraw`: null the scratch value. -/
def clearCell (c : Cell) : Cell := { c with scratchValue := none }

/-- `clearDraw` (state.js lines 57-62): nulls the scratch value of every cell in
`scratchCells`, then empties the collection (`scratchCells.length = 0`). -/
def State.clearDraw (s : State) : State :=
  { cells := s.scratchCells.foldl (fun cs p => updateCells cs p clearCell) s.cells
    scratchCells := [] }

/-- `ascii.CellContext`: the special flags of the four orthogonal neighbours. -/
structure CellContext where
  left : Bool
  right : Bool
  up : Bool
  down : Bool
deriving DecidableEq, Repr

/-- `getContext` (state.js lines 96-102). -/
def State.getContext (s : State) (p : Vec) : CellContext :=
  { left := (s.getCell (p.add ⟨-1, 0⟩)).isSpecial
    right := (s.getCell (p.add ⟨1, 0⟩)).isSpecial
    up := (s.getCell (p.add ⟨0, -1⟩)).isSpecial
    down := (s.getCell (p.add ⟨0, 1⟩)).isSpecial }

/-- `getDrawValue` (state.js lines 70-90): resolve scratch over committed value;
a non-sentinel value is returned unchanged, the sentinel is resolved from the
neighbour context by the four-rule chain. -/
def State.getDrawValue (s : State) (p : Vec) : Option Char :=
  let value := (s.getCell p).getRawValue
  if value ≠ some SPECIAL_VALUE then value
  else
    let context := s.getContext p
    if context.left && context.right && !context.up && !context.down then
      some SPECIAL_LINE_H
    else if !context.left && !context.right && context.up && context.down then
      some SPECIAL_LINE_V
    else if context.left && context.right && context.up && context.down then
      some SPECIAL_LINE_H
    else
      some SPECIAL_VALUE

/-- The per-cell effect of `commitDraw` (state.js lines 108-115): read the
resolved value, convert a single blank to null, null the scratch value and
store the result as the committed value. -/
def commitCell (c : Cell) : Cell :=
  let newValue := c.getRawValue
  let newValue2 := if newValue = some ' ' then none else newValue
  { c with scratchValue := none, value := newValue2 }

/-- `commitDraw` (state.js lines 107-117): commits every cell in `scratchCells`.
Note: the source does not empty `scratchCells` here (there is no
`scratchCells.length = 0` in `commitDraw`, unlike `clearDraw`). -/
def State.commitDraw (s : State) : State :=
  { s with cells := s.scratchCells.foldl (fun cs p => updateCells cs p commitCell) s.cells }

/-- A finite sequence of `drawValue` calls, applied in order. -/
def applyDraws (s : State) (ws : List (Vec × Option Char)) : State :=
  ws.foldl (fun t pv => t.drawValue pv.1 pv.2) s

/-- The value of the last write to coordinate `c` in a sequence of draw calls,
if any (later list entries are later calls). -/
def lastWrite : List (Vec × Option Char) → Vec → Option (Option Char)
  | [], _ => none
  | pv :: ws, c =>
    match lastWrite ws c with
    | some w => some w
    | none => if pv.1 = c then some pv.2 else none

/-- The invariant of §3: a cell's scratch value is non-null only while its
coordinate is a member of the active scratch collection. -/
def ScratchInv (s : State) : Prop :=
  ∀ c, (s.cells c).scratchValue ≠ none → c ∈ s.scratchCells

/-! Coordinate transforms, from the `View` class.  The canvas size, zoom and
offset are the view's mutable state; the per-cell pixel sizes and the grid
dimensions are constants from `constants.js`, which is not among the sources,
so they are kept as parameters.  The arithmetic is read over the rationals. -/

/-- A 2D vector with rational (real-valued) components, for pointer (screen)
and plane (frame) coordinates. -/
structure QVec where
  x : ℚ
  y : ℚ
deriving DecidableEq, Repr

/-- JavaScript `Math.round`: round half towards positive infinity,
`Math.round(x) = floor(x + 1/2)`. -/
def jround (q : ℚ) : Int := Int.floor (q + 1 / 2)

/-- The view parameters used by the coordinate transforms: the canvas size
(`canvas.width`, `canvas.height`), the zoom factor and the pan offset. -/
structure View where
  width : ℚ
  height : ℚ
  zoom : ℚ
  offset : QVec

/-- `screenToFrame` (View, lines 231-236): pointer space to plane space. -/
def View.screenToFrame (v : View) (p : QVec) : QVec :=
  ⟨(p.x - v.width / 2) / v.zoom + v.offset.x,
   (p.y - v.height / 2) / v.zoom + v.offset.y⟩

/-- `frameToScreen` (View, lines 243-248): plane space to pointer space. -/
def View.frameToScreen (v : View) (q : QVec) : QVec :=
  ⟨(q.x - v.offset.x) * v.zoom + v.width / 2,
   (q.y - v.offset.y) * v.zoom + v.height / 2⟩

/-- `frameToCell` (View, lines 255-265): plane space to cell indices.  The x
axis rounds `(x - CHAR_PIXELS_H/2) / CHAR_PIXELS_H`, the y axis rounds
`(y + CHAR_PIXELS_V/2) / CHAR_PIXELS_V`, and each axis is clamped as
`min (max 1 r) (MAXDIM - 2)`.  `cw`/`ch` stand for `CHAR_PIXELS_H`/`CHAR_PIXELS_V`
and `W`/`H` for `MAX_GRID_WIDTH`/`MAX_GRID_HEIGHT` (constants.js is not among
the sources). -/
def frameToCell (cw ch : ℚ) (W H : Int) (q : QVec) : Vec :=
  ⟨min (max 1 (jround ((q.x - cw / 2) / cw))) (W - 2),
   min (max 1 (jround ((q.y + ch / 2) / ch))) (H - 2)⟩

/-- The claim's description of `planeToCell`, stated for comparison with the
source: divide each axis by the per-cell pixel size, round to nearest
integer, clamp to `[1, MAXDIM - 2]`, symmetrically in x and y. -/
def planeToCellSpecClaimed (cw ch : ℚ) (W H : Int) (q : QVec) : Vec :=
  ⟨min (max 1 (jround (q.x / cw))) (W - 2),
   min (max 1 (jround (q.y / ch))) (H - 2)⟩

/-- The amended description of `planeToCell`, stated for comparison with the
source: shift the x axis down by half a cell width and the y axis up by half
a cell height before dividing and rounding, then clamp to `[1, MAXDIM - 2]`
(clamp written lower-bound outermost). -/
def planeToCellSpecAmended (cw ch : ℚ) (W H : Int) (q : QVec) : Vec :=
  ⟨max 1 (min (W - 2) (jround ((q.x - cw / 2) / cw))),
   max 1 (min (H - 2) (jround ((q.y + ch / 2) / ch)))⟩

/-! The Box draw tool, from `src/js-lib/draw/box.js`. -/

/-- The integers from `a` to `b` inclusive, in either order of endpoints. -/
def intsBetween (a b : Int) : List Int :=
  (List.range ((b - a).natAbs + 1)).map (fun i => min a b + i)

/-- Modelled from the spec: `draw/utils.js` `drawLine` is not among the sources.
§4.4 Box: draw one of the two perpendicular special-marked lines between the
anchor and the current position (a horizontal-then-vertical elbow when
`clockwise`, vertical-then-horizontal otherwise), writing the special-marker
sentinel into the scratch overlay via `drawValue`.  It reads the coordinates
of both endpoints, so it requires an actual (non-null) anchor vector. -/
def drawLine (s : State) (a b : Vec) (clockwise : Bool) : State :=
  if clockwise then
    let s1 := (intsBetween a.x b.x).foldl
      (fun t x => t.drawValue ⟨x, a.y⟩ (some SPECIAL_VALUE)) s
    (intsBetween a.y b.y).foldl
      (fun t y => t.drawValue ⟨b.x, y⟩ (some SPECIAL_VALUE)) s1
  else
    let s1 := (intsBetween a.y b.y).foldl
      (fun t y => t.drawValue ⟨a.x, y⟩ (some SPECIAL_VALUE)) s
    (intsBetween a.x b.x).foldl
      (fun t x => t.drawValue ⟨x, b.y⟩ (some SPECIAL_VALUE)) s1

/-- The Box tool (`box.js`): holds the state reference and the recorded anchor,
`startPosition`, which is null until the first `start` of a gesture. -/
structure DrawBox where
  state : State
  startPosition : Option Vec

/-- `DrawBox.start` (box.js): record the anchor. -/
def DrawBox.start (t : DrawBox) (p : Vec) : DrawBox :=
  { t with startPosition := some p }

/-- `DrawBox.move` (box.js lines 24-28): `clearDraw`, then draw the two
perpendicular lines between `startPosition` and the position.  The source
passes `this.startPosition` to `drawLine` unconditionally; when no `start`
preceded the move, the anchor is null and `drawLine` dereferences it, a
runtime failure (JavaScript TypeError), modelled as `none`. -/
def DrawBox.move (t : DrawBox) (p : Vec) : Option DrawBox :=
  match t.startPosition with
  | none => none
  | some a =>
    some { t with state := drawLine (drawLine t.state.clearDraw a p true) a p false }

/-- `DrawBox.end` (box.js, named `end` in the source): commit the scratch. -/
def DrawBox.endDraw (t : DrawBox) : DrawBox :=
  { t with state := t.state.commitDraw }

/-! Concrete states used to instantiate theorems with hypotheses. -/

/-- A fresh cell: no committed value, no scratch value, not special. -/
def blankCell : Cell := ⟨none, none, false⟩

/-- A fresh state: every cell blank, empty scratch collection. -/
def initState : State := ⟨fun _ => blankCell, []⟩

/-- A state whose cell (5,5) holds the committed sentinel with its left and
right neighbours special and its up and down neighbours not special. -/
def stateLR : State :=
  ⟨fun q =>
    if q = ⟨4, 5⟩ ∨ q = ⟨6, 5⟩ then ⟨none, none, true⟩
    else if q = ⟨5, 5⟩ then ⟨some SPECIAL_VALUE, none, false⟩
    else blankCell, []⟩

/-- A state whose cell (5,5) holds the committed sentinel with no special
neighbour at all (an isolated connector cell). -/
def stateIso : State :=
  ⟨fun q => if q = ⟨5, 5⟩ then ⟨some SPECIAL_VALUE, none, false⟩ else blankCell, []⟩

/-- A concrete view for instantiating the round-trip theorem. -/
def viewW : View := ⟨800, 600, 2, ⟨3, 4⟩⟩

/-! Shared lemmas. -/

theorem updateCells_apply (cs : Vec → Cell) (p : Vec) (f : Cell → Cell) (q : Vec) :
    updateCells cs p f q = if q = p then f (cs q) else cs q := rfl

/-- Folding a pointwise-idempotent per-cell update over a list of coordinates
applies the update once at every listed coordinate. -/
theorem foldl_update_apply (f : Cell → Cell) (hf : ∀ c, f (f c) = f c)
    (L : List Vec) (cs : Vec → Cell) (q : Vec) :
    (L.foldl (fun g p => updateCells g p f) cs) q = if q ∈ L then f (cs q) else cs q := by
  induction L generalizing cs with
  | nil => simp
  | cons p L ih =>
    simp only [List.foldl_cons, ih, List.mem_cons]
    by_cases hqp : q = p
    · subst hqp
      by_cases hqL : q ∈ L <;> simp [updateCells, hqL, hf]
    · by_cases hqL : q ∈ L <;> simp [updateCells, hqp, hqL]

theorem clearCell_idem (c : Cell) : clearCell (clearCell c) = clearCell c := rfl

theorem commitCell_idem (c : Cell) : commitCell (commitCell c) = commitCell c := by
  obtain ⟨v, sv, sp⟩ := c
  cases sv with
  | none =>
    cases v with
    | none => rfl
    | some ch =>
      by_cases h : ch = ' ' <;> simp [commitCell, Cell.getRawValue, h]
  | some ch =>
    by_cases h : ch = ' ' <;> simp [commitCell, Cell.getRawValue, h]

theorem clearDraw_cells_apply (s : State) (q : Vec) :
    s.clearDraw.cells q = if q ∈ s.scratchCells then clearCell (s.cells q) else s.cells q :=
  foldl_update_apply clearCell clearCell_idem s.scratchCells s.cells q

theorem commitDraw_cells_apply (s : State) (q : Vec) :
    s.commitDraw.cells q = if q ∈ s.scratchCells then commitCell (s.cells q) else s.cells q :=
  foldl_update_apply commitCell commitCell_idem s.scratchCells s.cells q

theorem commitDraw_scratchCells (s : State) : s.commitDraw.scratchCells = s.scratchCells := rfl

/-- Committing twice in a row leaves every cell as the first commit left it. -/
theorem commit_commit_cells (s : State) (q : Vec) :
    s.commitDraw.commitDraw.cells q = s.commitDraw.cells q := by
  rw [commitDraw_cells_apply s.commitDraw q, commitDraw_scratchCells,
    commitDraw_cells_apply s q]
  by_cases hq : q ∈ s.scratchCells
  · simp [hq, commitCell_idem]
  · simp [hq]

theorem applyDraws_nil (s : State) : applyDraws s [] = s := rfl

theorem applyDraws_cons (s : State) (pv : Vec × Option Char) (ws : List (Vec × Option Char)) :
    applyDraws s (pv :: ws) = applyDraws (s.drawValue pv.1 pv.2) ws := rfl

theorem applyDraws_scratchCells (ws : List (Vec × Option Char)) (s : State) :
    (applyDraws s ws).scratchCells = s.scratchCells ++ ws.map Prod.fst := by
  induction ws generalizing s with
  | nil => simp [applyDraws]
  | cons pv ws ih =>
    rw [applyDraws_cons, ih]
    simp [State.drawValue]

theorem scratch_overwrite (c : Cell) (v w : Option Char) :
    ({ { c with scratchValue := v } with scratchValue := w } : Cell)
      = { c with scratchValue := w } := rfl

/-- After a sequence of draw calls, a cell carries the last scratch value
written to its coordinate and is otherwise unchanged. -/
theorem applyDraws_cells (ws : List (Vec × Option Char)) (s : State) (q : Vec) :
    (applyDraws s ws).cells q =
      match lastWrite ws q with
      | some w => { s.cells q with scratchValue := w }
      | none => s.cells q := by
  induction ws generalizing s with
  | nil => rfl
  | cons pv ws ih =>
    rw [applyDraws_cons, ih]
    simp only [State.drawValue, updateCells_apply, lastWrite]
    cases hlw : lastWrite ws q with
    | some w =>
      by_cases hqp : q = pv.1 <;> simp [hqp, scratch_overwrite]
    | none =>
      by_cases hqp : q = pv.1
      · simp [hqp]
      · have : ¬ pv.1 = q := fun h => hqp h.symm
        simp [hqp, this]

theorem lastWrite_mem (ws : List (Vec × Option Char)) (q : Vec) (w : Option Char)
    (h : lastWrite ws q = some w) : q ∈ ws.map Prod.fst := by
  induction ws generalizing w with
  | nil => simp [lastWrite] at h
  | cons pv ws ih =>
    simp only [lastWrite] at h
    cases hlw : lastWrite ws q with
    | some u =>
      exact List.mem_cons_of_mem _ (ih u hlw)
    | none =>
      rw [hlw] at h
      by_cases hp : pv.1 = q
      · simp [hp]
      · simp [hp] at h

theorem lastWrite_eq_none (ws : List (Vec × Option Char)) (q : Vec)
    (h : q ∉ ws.map Prod.fst) : lastWrite ws q = none := by
  cases hlw : lastWrite ws q with
  | none => rfl
  | some w => exact absurd (lastWrite_mem ws q w hlw) h

theorem cell_clear_eta (c : Cell) (h : c.scratchValue = none) :
    ({ c with scratchValue := none } : Cell) = c := by
  obtain ⟨v, sv, sp⟩ := c
  simp only at h
  rw [h.symm]

/-- `getDrawValue` depends only on the cell family, not on `scratchCells`. -/
theorem getDrawValue_ext (s t : State) (h : ∀ q, s.cells q = t.cells q) (p : Vec) :
    s.getDrawValue p = t.getDrawValue p := by
  have hc : s.cells = t.cells := funext h
  simp only [State.getDrawValue, State.getContext, State.getCell, hc]

/-- When the resolved value at `p` is the sentinel, `getDrawValue` is the
four-rule chain over the neighbour context. -/
theorem getDrawValue_special_if (s : State) (p : Vec)
    (h : (s.getCell p).getRawValue = some SPECIAL_VALUE) :
    s.getDrawValue p =
      (if (s.getContext p).left && (s.getContext p).right
          && !(s.getContext p).up && !(s.getContext p).down then
        some SPECIAL_LINE_H
      else if !(s.getContext p).left && !(s.getContext p).right
          && (s.getContext p).up && (s.getContext p).down then
        some SPECIAL_LINE_V
      else if (s.getContext p).left && (s.getContext p).right
          && (s.getContext p).up && (s.getContext p).down then
        some SPECIAL_LINE_H
      else
        some SPECIAL_VALUE) := by
  simp only [State.getDrawValue, h, ne_eq, not_true_eq_false, if_false]

/-! Claim theorems. -/

/-- C1: for every coordinate whose resolved value (scratch if present, else
committed) is the special-marker sentinel, `getDrawValue` resolves the glyph
from the four neighbour special flags by exactly four first-match-wins rules:
left and right special with up and down not special gives the horizontal
connector; up and down special with left and right not special gives the
vertical connector; all four special gives the horizontal connector; every
other combination gives the generic fallback connector glyph (which is the
sentinel character, see C9). -/
theorem getDrawValue_four_rules (s : State) (p : Vec)
    (h : (s.getCell p).getRawValue = some SPECIAL_VALUE) :
    ((s.getContext p).left = true ∧ (s.getContext p).right = true ∧
      (s.getContext p).up = false ∧ (s.getContext p).down = false →
      s.getDrawValue p = some SPECIAL_LINE_H)
  ∧ ((s.getContext p).left = false ∧ (s.getContext p).right = false ∧
      (s.getContext p).up = true ∧ (s.getContext p).down = true →
      s.getDrawValue p = some SPECIAL_LINE_V)
  ∧ ((s.getContext p).left = true ∧ (s.getContext p).right = true ∧
      (s.getContext p).up = true ∧ (s.getContext p).down = true →
      s.getDrawValue p = some SPECIAL_LINE_H)
  ∧ (¬((s.getContext p).left = true ∧ (s.getContext p).right = true ∧
        (s.getContext p).up = false ∧ (s.getContext p).down = false) →
     ¬((s.getContext p).left = false ∧ (s.getContext p).right = false ∧
        (s.getContext p).up = true ∧ (s.getContext p).down = true) →
     ¬((s.getContext p).left = true ∧ (s.getContext p).right = true ∧
        (s.getContext p).up = true ∧ (s.getContext p).down = true) →
      s.getDrawValue p = some SPECIAL_VALUE) := by
  rw [getDrawValue_special_if s p h]
  rcases hctx : s.getContext p with ⟨l, r, u, d⟩
  cases l <;> cases r <;> cases u <;> cases d <;> simp

/-- Witness for C1: a concrete state whose cell (5,5) resolves to the sentinel
with exactly the left and right neighbours special renders the horizontal
connector glyph. -/
theorem getDrawValue_four_rules_witness :
    (stateLR.getCell ⟨5, 5⟩).getRawValue = some SPECIAL_VALUE ∧
    stateLR.getDrawValue ⟨5, 5⟩ = some SPECIAL_LINE_H :=
  ⟨by decide, (getDrawValue_four_rules stateLR ⟨5, 5⟩ (by decide)).1 (by decide)⟩

/-- C9: when the resolved value is the sentinel and the neighbour context
matches none of the three explicit connector rules, `getDrawValue` returns
the sentinel character itself: the generic fallback glyph is literally the
stored sentinel, not a distinct glyph constant. -/
theorem getDrawValue_fallback_sentinel (s : State) (p : Vec)
    (h : (s.getCell p).getRawValue = some SPECIAL_VALUE)
    (h1 : ¬((s.getContext p).left = true ∧ (s.getContext p).right = true ∧
        (s.getContext p).up = false ∧ (s.getContext p).down = false))
    (h2 : ¬((s.getContext p).left = false ∧ (s.getContext p).right = false ∧
        (s.getContext p).up = true ∧ (s.getContext p).down = true))
    (h3 : ¬((s.getContext p).left = true ∧ (s.getContext p).right = true ∧
        (s.getContext p).up = true ∧ (s.getContext p).down = true)) :
    s.getDrawValue p = some SPECIAL_VALUE := by
  rw [getDrawValue_special_if s p h]
  rcases hctx : s.getContext p with ⟨l, r, u, d⟩
  rw [hctx] at h1 h2 h3
  cases l <;> cases r <;> cases u <;> cases d <;> simp_all

/-- Witness for C9: an isolated sentinel cell (no special neighbour) renders
as the sentinel character itself. -/
theorem getDrawValue_fallback_sentinel_witness :
    (stateIso.getCell ⟨5, 5⟩).getRawValue = some SPECIAL_VALUE ∧
    stateIso.getDrawValue ⟨5, 5⟩ = some SPECIAL_VALUE :=
  ⟨by decide,
    getDrawValue_fallback_sentinel stateIso ⟨5, 5⟩ (by decide)
      (by decide) (by decide) (by decide)⟩

/-- C2: for any finite sequence of `drawValue` calls followed by a single
`commitDraw`, every touched coordinate's committed value equals the last
scratch value written to it, except that a single blank character commits as
null (drawing blank erases rather than storing a literal space). -/
theorem commitDraw_last_write (s : State) (ws : List (Vec × Option Char)) (c : Vec) (v : Char)
    (h : lastWrite ws c = some (some v)) :
    ((applyDraws s ws).commitDraw.cells c).value = if v = ' ' then none else some v := by
  have hmem : c ∈ (applyDraws s ws).scratchCells := by
    rw [applyDraws_scratchCells]
    exact List.mem_append_right _ (lastWrite_mem ws c (some v) h)
  rw [commitDraw_cells_apply, if_pos hmem, applyDraws_cells, h]
  by_cases hv : v = ' ' <;> simp [commitCell, Cell.getRawValue, hv]

/-- Witness for C2: drawing 'A' then 'B' at (2,2) and committing stores 'B';
the hypothesis that the last write at (2,2) is 'B' is checked concretely. -/
theorem commitDraw_last_write_witness :
    lastWrite [(⟨2, 2⟩, some 'A'), (⟨2, 2⟩, some 'B')] ⟨2, 2⟩ = some (some 'B') ∧
    ((applyDraws initState [(⟨2, 2⟩, some 'A'), (⟨2, 2⟩, some 'B')]).commitDraw.cells
      ⟨2, 2⟩).value = some 'B' :=
  ⟨by decide,
    (commitDraw_last_write initState [(⟨2, 2⟩, some 'A'), (⟨2, 2⟩, some 'B')] ⟨2, 2⟩ 'B'
      (by decide)).trans (by decide)⟩

/-- C10: `commitDraw` is idempotent: a second `commitDraw` immediately after a
first, with no intervening `drawValue` or `clearDraw`, leaves every cell's
committed value and scratch value exactly as the first call left them. -/
theorem commitDraw_idempotent (s : State) (c : Vec) :
    (s.commitDraw.commitDraw.cells c).value = (s.commitDraw.cells c).value ∧
    (s.commitDraw.commitDraw.cells c).scratchValue = (s.commitDraw.cells c).scratchValue :=
  ⟨by rw [commit_commit_cells], by rw [commit_commit_cells]⟩

/-- C3 counterexample: `commitDraw` does not empty the active scratch
collection.  Drawing once on a fresh state and committing leaves the
coordinate in `scratchCells`, refuting the claim that after `commitDraw()`
the active scratch set is empty. -/
theorem commitDraw_not_drained_cex :
    ¬ ((initState.drawValue ⟨5, 5⟩ (some 'X')).commitDraw.scratchCells = []) := by
  decide

/-- C3 (amended): after `clearDraw()` the active scratch set is empty and every
cell's scratch value is null; after `commitDraw()` every member's scratch
value is null but the set is not emptied; and the invariant that a cell's
scratch value is non-null only while its coordinate is a member of the active
scratch set is preserved by `clearDraw`, `commitDraw` and `drawValue`. -/
theorem scratch_set_invariant (s : State) (h : ScratchInv s) :
    (s.clearDraw.scratchCells = [] ∧ ∀ c, (s.clearDraw.cells c).scratchValue = none)
  ∧ (∀ c, c ∈ s.scratchCells → (s.commitDraw.cells c).scratchValue = none)
  ∧ ScratchInv s.clearDraw ∧ ScratchInv s.commitDraw
  ∧ (∀ p v, ScratchInv (s.drawValue p v)) := by
  have hclear : ∀ c, (s.clearDraw.cells c).scratchValue = none := by
    intro c
    rw [clearDraw_cells_apply]
    by_cases hc : c ∈ s.scratchCells
    · simp [hc, clearCell]
    · rw [if_neg hc]
      cases hsv : (s.cells c).scratchValue with
      | none => rfl
      | some w => exact absurd (h c (by rw [hsv]; exact Option.some_ne_none w)) hc
  refine ⟨⟨rfl, hclear⟩, ?_, ?_, ?_, ?_⟩
  · intro c hc
    rw [commitDraw_cells_apply, if_pos hc]
    rfl
  · intro c hc
    exact absurd (hclear c) hc
  · intro c hc
    rw [commitDraw_scratchCells]
    by_cases hmem : c ∈ s.scratchCells
    · exact hmem
    · rw [commitDraw_cells_apply, if_neg hmem] at hc
      exact h c hc
  · intro p v c hc
    simp only [State.drawValue, updateCells_apply] at hc ⊢
    by_cases hcp : c = p
    · exact List.mem_append_right _ (by simp [hcp])
    · rw [if_neg hcp] at hc
      exact List.mem_append_left _ (h c hc)

/-- Witness for C3 (amended): the fresh state satisfies the scratch invariant,
and instantiating the theorem there shows, e.g., that its `clearDraw` leaves
an empty scratch set and that the invariant survives `commitDraw`. -/
theorem scratch_set_invariant_witness :
    initState.clearDraw.scratchCells = [] ∧ ScratchInv initState.commitDraw :=
  ⟨(scratch_set_invariant initState (fun _ hc => absurd rfl hc)).1.1,
   (scratch_set_invariant initState (fun _ hc => absurd rfl hc)).2.2.2.1⟩

/-- C4: starting from a state with no active scratch, any finite sequence of
`drawValue` calls followed by `clearDraw` restores `getDrawValue` to its
pre-sequence value at every coordinate (in particular every touched one), and
leaves every cell's committed value unchanged. -/
theorem clearDraw_roundtrip (s : State) (ws : List (Vec × Option Char))
    (h : ∀ c, (s.cells c).scratchValue = none) :
    (∀ c, (applyDraws s ws).clearDraw.getDrawValue c = s.getDrawValue c)
  ∧ (∀ c, ((applyDraws s ws).clearDraw.cells c).value = (s.cells c).value) := by
  have hcells : ∀ q, (applyDraws s ws).clearDraw.cells q = s.cells q := by
    intro q
    rw [clearDraw_cells_apply]
    by_cases hq : q ∈ (applyDraws s ws).scratchCells
    · rw [if_pos hq, applyDraws_cells]
      cases hlw : lastWrite ws q with
      | some w =>
        show ({ { s.cells q with scratchValue := w } with scratchValue := none } : Cell)
          = s.cells q
        rw [scratch_overwrite]
        exact cell_clear_eta (s.cells q) (h q)
      | none => exact cell_clear_eta (s.cells q) (h q)
    · rw [if_neg hq, applyDraws_cells, lastWrite_eq_none ws q]
      intro hmem
      exact hq (by
        rw [applyDraws_scratchCells]
        exact List.mem_append_right _ hmem)
  exact ⟨fun c => getDrawValue_ext _ _ hcells c, fun c => by rw [hcells c]⟩

/-- Witness for C4: drawing 'X' at (5,5) on the fresh state and clearing
restores the displayed value at (5,5). -/
theorem clearDraw_roundtrip_witness :
    (applyDraws initState [(⟨5, 5⟩, some 'X')]).clearDraw.getDrawValue ⟨5, 5⟩
      = initState.getDrawValue ⟨5, 5⟩ :=
  (clearDraw_roundtrip initState [(⟨5, 5⟩, some 'X')] (fun _ => rfl)).1 ⟨5, 5⟩

/-- C5: for every finite plane-space vector, both components of the cell index
returned by `frameToCell` lie within `[1, MAXDIM - 2]` of the corresponding
grid dimension, so the ±1 neighbour lookups of `getContext` from any
pointer-derived cell index stay within the grid bounds `[0, MAXDIM - 1]`. -/
theorem frameToCell_in_bounds (cw ch : ℚ) (W H : Int) (q : QVec)
    (hW : 3 ≤ W) (hH : 3 ≤ H) :
    (1 ≤ (frameToCell cw ch W H q).x ∧ (frameToCell cw ch W H q).x ≤ W - 2)
  ∧ (1 ≤ (frameToCell cw ch W H q).y ∧ (frameToCell cw ch W H q).y ≤ H - 2)
  ∧ (0 ≤ (frameToCell cw ch W H q).x - 1 ∧ (frameToCell cw ch W H q).x + 1 ≤ W - 1)
  ∧ (0 ≤ (frameToCell cw ch W H q).y - 1 ∧ (frameToCell cw ch W H q).y + 1 ≤ H - 1) := by
  simp only [frameToCell]
  generalize jround ((q.x - cw / 2) / cw) = rx
  generalize jround ((q.y + ch / 2) / ch) = ry
  omega

/-- Witness for C5: at the real constants of the application-scale grid
(2000 × 600 cells) and a pointer position far outside any viewport, the cell
index lands in the bordered interior. -/
theorem frameToCell_in_bounds_witness :
    (3 : Int) ≤ 2000 ∧ (3 : Int) ≤ 600 ∧
    (1 ≤ (frameToCell 9 17 2000 600 ⟨-100000, 100000⟩).x ∧
      (frameToCell 9 17 2000 600 ⟨-100000, 100000⟩).x ≤ 2000 - 2) :=
  ⟨by decide, by decide,
    (frameToCell_in_bounds 9 17 2000 600 ⟨-100000, 100000⟩ (by decide) (by decide)).1⟩

/-- C6 counterexample: `frameToCell` does not divide each axis by the per-cell
pixel size and round: with a cell size of 10 on both axes the claimed
formula sends the plane point (15, 15) to cell x-index 2 while the source
sends it to 1 (the x axis subtracts half a cell width before dividing, and
the y axis adds half a cell height, so the axes are not symmetric either). -/
theorem frameToCell_not_plain_round_cex :
    planeToCellSpecClaimed 10 10 100 100 ⟨15, 15⟩ ≠ frameToCell 10 10 100 100 ⟨15, 15⟩ := by
  have h1 : jround ((15 : ℚ) / 10) = 2 := by
    rw [jround, show (15 : ℚ) / 10 + 1 / 2 = 2 by norm_num]
    exact Int.floor_intCast 2
  have h2 : jround (((15 : ℚ) - 10 / 2) / 10) = 1 := by
    rw [jround, show ((15 : ℚ) - 10 / 2) / 10 + 1 / 2 = 3 / 2 by norm_num]
    rw [Int.floor_eq_iff]
    norm_num
  simp only [planeToCellSpecClaimed, frameToCell, h1, h2, ne_eq, Vec.mk.injEq, not_and]
  intro h
  omega

/-- C6 (amended): `frameToCell` computes the x axis by rounding
`(q.x - cellWidth/2) / cellWidth` to the nearest integer (JavaScript
rounding) and the y axis by rounding `(q.y + cellHeight/2) / cellHeight` —
the x axis shifts down by half a cell and the y axis shifts up by half a
cell before dividing, so the axes are not symmetric — and then clamps each
axis to `[1, MAXDIM - 2]`. -/
theorem frameToCell_shifted_clamp (cw ch : ℚ) (W H : Int) (q : QVec)
    (hW : 3 ≤ W) (hH : 3 ≤ H) :
    frameToCell cw ch W H q = planeToCellSpecAmended cw ch W H q := by
  simp only [frameToCell, planeToCellSpecAmended, Vec.mk.injEq]
  constructor
  · generalize jround ((q.x - cw / 2) / cw) = rx
    omega
  · generalize jround ((q.y + ch / 2) / ch) = ry
    omega

/-- Witness for C6 (amended): concrete evaluation at cell size 10 and grid
dimension 100. -/
theorem frameToCell_shifted_clamp_witness :
    (3 : Int) ≤ 100 ∧
    frameToCell 10 10 100 100 ⟨15, 15⟩ = planeToCellSpecAmended 10 10 100 100 ⟨15, 15⟩ :=
  ⟨by decide, frameToCell_shifted_clamp 10 10 100 100 ⟨15, 15⟩ (by decide) (by decide)⟩

/-- C7: `frameToScreen` is the exact inverse of `screenToFrame` over the
rationals, for every nonzero zoom, every offset, every canvas size and every
pointer-space point. -/
theorem frameToScreen_screenToFrame_id (v : View) (hz : v.zoom ≠ 0) (p : QVec) :
    v.frameToScreen (v.screenToFrame p) = p := by
  obtain ⟨px, py⟩ := p
  simp only [View.screenToFrame, View.frameToScreen, QVec.mk.injEq]
  constructor <;> field_simp <;> ring

/-- Witness for C7: round trip of the pointer point (10, 20) through a
concrete view with zoom 2. -/
theorem frameToScreen_screenToFrame_id_witness :
    viewW.zoom ≠ 0 ∧ viewW.frameToScreen (viewW.screenToFrame ⟨10, 20⟩) = ⟨10, 20⟩ :=
  ⟨by decide, frameToScreen_screenToFrame_id viewW (by decide) ⟨10, 20⟩⟩

/-- C8 counterexample: the Box tool does not tolerate `move` with no preceding
`start`: the anchor is still null and `drawLine` dereferences it, so the
call fails (modelled as `none`) instead of completing as a no-op. -/
theorem box_move_without_start_cex :
    (DrawBox.mk initState none).move ⟨3, 3⟩ = none := rfl

/-- C8 (amended): a duplicate `end()` after a completed gesture completes
without error and leaves every cell exactly as the first `end()` left it,
but `move(position)` with no preceding `start()` for the gesture is not a
tolerated no-op: the null anchor makes the call fail. -/
theorem box_gesture_tolerance (t u : DrawBox) (p : Vec) (h : t.startPosition = none) :
    t.move p = none
  ∧ (∀ c, u.endDraw.endDraw.state.cells c = u.endDraw.state.cells c) := by
  constructor
  · simp [DrawBox.move, h]
  · intro c
    exact commit_commit_cells u.state c

/-- Witness for C8 (amended): concrete instantiation with a tool that has no
recorded anchor and a tool observed at cell (0,0) after a double commit. -/
theorem box_gesture_tolerance_witness :
    (DrawBox.mk initState none).move ⟨4, 4⟩ = none ∧
    (DrawBox.mk initState (some ⟨1, 1⟩)).endDraw.endDraw.state.cells ⟨0, 0⟩
      = (DrawBox.mk initState (some ⟨1, 1⟩)).endDraw.state.cells ⟨0, 0⟩ :=
  ⟨(box_gesture_tolerance (DrawBox.mk initState none)
      (DrawBox.mk initState (some ⟨1, 1⟩)) ⟨4, 4⟩ rfl).1,
   (box_gesture_tolerance (DrawBox.mk initState none)
      (DrawBox.mk initState (some ⟨1, 1⟩)) ⟨4, 4⟩ rfl).2 ⟨0, 0⟩⟩

end AsciiFlow
